import Mathlib

/-!
Verification of the MCP-client core (repository `mcca`).

The development shallowly embeds the Python sources of the repository:

* `mcpclient/tools/extraction.py` — `ToolExtractor.extract_tool_calls`
* `mcpclient/tools/execution.py`  — `ToolExecutor.format_tool_result`,
  `ToolExecutor.validate_tool_args`
* `mcpclient/client.py`           — `MCPClient.process_query_streaming`
* `mcpclient/llm/gpt4o.py`, `mcpclient/llm/gemini.py` — `generate_streaming`
* `session.py`, `mcpclient/connectors/base.py` — session facade and connector

Python strings are modelled as `List Char`; Python dicts that the code reads
and writes as mappings are modelled as insertion-ordered association lists;
`json.loads` is modelled by an executable recursive-descent parser producing
the same value universe (`PyValue`) the Python code receives.  Character
classes of the `re` module (`\s`, `\w`) are modelled over the ASCII range the
repository actually exercises; Python's classes are additionally
Unicode-aware, which no claim here depends on.
-/

namespace Mcp

/-- Python strings, as lists of characters. -/
abbrev Str := List Char

/-- `re` class `\s` (ASCII part): space, tab, newline, carriage return,
vertical tab, form feed.  Also Python `str.strip()` whitespace. -/
def isPyWs (c : Char) : Bool :=
  c = ' ' || c = '\t' || c = '\n' || c = '\r' || c = '\x0b' || c = '\x0c'

/-- `re` class `\w` (ASCII part): letters, digits, underscore. -/
def isWordChar (c : Char) : Bool :=
  ('a' ≤ c && c ≤ 'z') || ('A' ≤ c && c ≤ 'Z') || ('0' ≤ c && c ≤ '9') || c = '_'

/-- The character class `[\w\-]` of the tool-name group. -/
def isNameChar (c : Char) : Bool := isWordChar c || c = '-'

/-- Decides whether `lit` is a prefix of `s` (char-by-char). -/
def leadsWith : Str → Str → Bool
  | [], _ => true
  | _ :: _, [] => false
  | c :: cs, d :: ds => c = d && leadsWith cs ds

/-- Consume the literal `lit` from the front of `s`, or fail. -/
def dropLit (lit s : Str) : Option Str :=
  if leadsWith lit s then some (s.drop lit.length) else none

/-- Split `s` at the first occurrence of `ch`: the part strictly before it and
the part strictly after it. -/
def splitAtFirst (ch : Char) : Str → Option (Str × Str)
  | [] => none
  | c :: t =>
    if c = ch then some ([], t)
    else (splitAtFirst ch t).map (fun p => (c :: p.1, p.2))

/-- Python `str.strip(chars)` restricted to a character set: remove the given
characters from both ends. -/
def stripBoth (p : Char → Bool) (s : Str) : Str :=
  ((s.dropWhile p).reverse.dropWhile p).reverse

/-- Python `str.strip()` (no argument): strip whitespace from both ends. -/
def pyStrip (s : Str) : Str := stripBoth isPyWs s

/-- Python `str.lower()` (ASCII part, via `Char.toLower`). -/
def lowerStr (s : Str) : Str := s.map Char.toLower

/-- Python substring test `needle in haystack`. -/
def containsSub (needle : Str) : Str → Bool
  | [] => leadsWith needle []
  | c :: t => leadsWith needle (c :: t) || containsSub needle t

/-- The universe of values `json.loads` produces and the tool code consumes:
Python `str`, `int`, `float`, `bool`, `list`, `dict`, `None`.  Floats are
carried as their source literal; no claim computes with float values. -/
inductive PyValue where
  | str : Str → PyValue
  | int : Int → PyValue
  | float : Str → PyValue
  | bool : Bool → PyValue
  | list : List PyValue → PyValue
  | dict : List (Str × PyValue) → PyValue
  | null : PyValue

/-- Insertion-ordered Python dict contents. -/
abbrev PyDict := List (Str × PyValue)

/-- Python dict assignment `d[k] = v`: overwrite in place when the key exists
(keeping its position), append otherwise. -/
def dictSet (d : PyDict) (k : Str) (v : PyValue) : PyDict :=
  match d with
  | [] => [(k, v)]
  | (k0, v0) :: rest =>
    if k0 = k then (k0, v) :: rest else (k0, v0) :: dictSet rest k v

/-- Python `key in d`. -/
def dictHas (d : PyDict) (k : Str) : Bool := d.any (fun kv => kv.1 = k)

/-- Python `d[k]` (defaulting to `None` for the absent case, which the code
never exercises after a `dictHas` guard). -/
def dictGet (d : PyDict) (k : Str) : PyValue :=
  match d.find? (fun kv => kv.1 = k) with
  | some kv => kv.2
  | none => PyValue.null

/-! ## JSON parsing (`json.loads`) -/

/-- JSON inter-token whitespace. -/
def jsonWs (c : Char) : Bool := c = ' ' || c = '\t' || c = '\n' || c = '\r'

/-- Skip JSON whitespace. -/
def skipWs (s : Str) : Str := s.dropWhile jsonWs

/-- One-character string escapes of JSON. -/
def escChar (c : Char) : Option Char :=
  if c = '"' then some '"'
  else if c = '\\' then some '\\'
  else if c = '/' then some '/'
  else if c = 'b' then some '\x08'
  else if c = 'f' then some '\x0c'
  else if c = 'n' then some '\n'
  else if c = 'r' then some '\r'
  else if c = 't' then some '\t'
  else none

/-- Hex digit value, by code point: `0`–`9`, `a`–`f`, `A`–`F`. -/
def hexVal (c : Char) : Option Nat :=
  let n := c.toNat
  if 48 ≤ n && n ≤ 57 then some (n - 48)
  else if 97 ≤ n && n ≤ 102 then some (n - 87)
  else if 65 ≤ n && n ≤ 70 then some (n - 55)
  else none

/-- Parse the body of a JSON string after the opening quote; return the
decoded characters and the remainder after the closing quote. -/
def parseJStr : Str → Option (Str × Str)
  | [] => none
  | c :: rest =>
    if c = '"' then some ([], rest)
    else if c = '\\' then
      match rest with
      | 'u' :: a :: b :: c2 :: d :: rest2 =>
        (match hexVal a, hexVal b, hexVal c2, hexVal d with
         | some ha, some hb, some hc, some hd =>
           (parseJStr rest2).map
             (fun p => (Char.ofNat (((ha * 16 + hb) * 16 + hc) * 16 + hd) :: p.1, p.2))
         | _, _, _, _ => none)
      | e :: rest2 =>
        (match escChar e with
         | some ch => (parseJStr rest2).map (fun p => (ch :: p.1, p.2))
         | none => none)
      | [] => none
    else (parseJStr rest).map (fun p => (c :: p.1, p.2))

/-- Digits of a string interpreted in base 10. -/
def digitsToNat (s : Str) : Nat :=
  s.foldl (fun acc c => acc * 10 + (c.toNat - '0'.toNat)) 0

/-- Parse a JSON number starting at `s`; integral literals become Python
`int`, literals with a fraction or exponent become Python `float` (carried as
their literal text). -/
def parseJNum (s : Str) : Option (PyValue × Str) :=
  let (neg, s1) := match s with | '-' :: t => (true, t) | _ => (false, s)
  let ds := s1.takeWhile Char.isDigit
  let s2 := s1.dropWhile Char.isDigit
  if ds.isEmpty then none
  else if ds.length > 1 && ds.headI = '0' then none
  else
    let mkInt : PyValue := PyValue.int (if neg then -(digitsToNat ds : Int) else (digitsToNat ds : Int))
    match s2 with
    | '.' :: t =>
      let fs := t.takeWhile Char.isDigit
      let s3 := t.dropWhile Char.isDigit
      if fs.isEmpty then none
      else
        (match s3 with
         | e :: t2 =>
           if e = 'e' || e = 'E' then
             let (t3, sgn) := match t2 with
               | '+' :: u => (u, ['+']) | '-' :: u => (u, ['-']) | u => (u, [])
             let es := t3.takeWhile Char.isDigit
             let s4 := t3.dropWhile Char.isDigit
             if es.isEmpty then none
             else some (PyValue.float ((if neg then ['-'] else []) ++ ds ++ '.' :: fs ++ e :: sgn ++ es), s4)
           else some (PyValue.float ((if neg then ['-'] else []) ++ ds ++ '.' :: fs), s3)
         | [] => some (PyValue.float ((if neg then ['-'] else []) ++ ds ++ '.' :: fs), []))
    | e :: t2 =>
      if e = 'e' || e = 'E' then
        let (t3, sgn) := match t2 with
          | '+' :: u => (u, ['+']) | '-' :: u => (u, ['-']) | u => (u, [])
        let es := t3.takeWhile Char.isDigit
        let s4 := t3.dropWhile Char.isDigit
        if es.isEmpty then none
        else some (PyValue.float ((if neg then ['-'] else []) ++ ds ++ e :: sgn ++ es), s4)
      else some (mkInt, s2)
    | [] => some (mkInt, [])

mutual

/-- Recursive-descent JSON value parser; `fuel` bounds the nesting and the
number of container members (any input of length `n` needs at most `n + 1`). -/
def parseJValue : Nat → Str → Option (PyValue × Str)
  | 0, _ => none
  | fuel + 1, s =>
    match skipWs s with
    | [] => none
    | c :: rest =>
      if c = '{' then parseObjBody fuel rest
      else if c = '[' then parseArrBody fuel rest
      else if c = '"' then (parseJStr rest).map (fun p => (PyValue.str p.1, p.2))
      else if c = 't' then
        (if leadsWith ("rue".data) rest then some (PyValue.bool true, rest.drop 3) else none)
      else if c = 'f' then
        (if leadsWith ("alse".data) rest then some (PyValue.bool false, rest.drop 4) else none)
      else if c = 'n' then
        (if leadsWith ("ull".data) rest then some (PyValue.null, rest.drop 3) else none)
      else parseJNum (c :: rest)

/-- Object body after the opening brace. -/
def parseObjBody : Nat → Str → Option (PyValue × Str)
  | 0, _ => none
  | fuel + 1, s =>
    match skipWs s with
    | [] => none
    | c :: rest =>
      if c = '}' then some (PyValue.dict [], rest)
      else if c = '"' then
        match parseJStr rest with
        | none => none
        | some (key, r1) =>
          match skipWs r1 with
          | [] => none
          | c2 :: r2 =>
            if c2 = ':' then
              match parseJValue fuel r2 with
              | none => none
              | some (v, r3) => parseObjMore fuel (dictSet [] key v) r3
            else none
      else none

/-- Further object members after the first. -/
def parseObjMore : Nat → PyDict → Str → Option (PyValue × Str)
  | 0, _, _ => none
  | fuel + 1, acc, s =>
    match skipWs s with
    | [] => none
    | c :: r =>
      if c = '}' then some (PyValue.dict acc, r)
      else if c = ',' then
        match skipWs r with
        | [] => none
        | c1 :: r1 =>
          if c1 = '"' then
            match parseJStr r1 with
            | none => none
            | some (key, r2) =>
              match skipWs r2 with
              | [] => none
              | c2 :: r3 =>
                if c2 = ':' then
                  match parseJValue fuel r3 with
                  | none => none
                  | some (v, r4) => parseObjMore fuel (dictSet acc key v) r4
                else none
          else none
      else none

/-- Array body after the opening bracket. -/
def parseArrBody : Nat → Str → Option (PyValue × Str)
  | 0, _ => none
  | fuel + 1, s =>
    match skipWs s with
    | [] => none
    | c :: rest =>
      if c = ']' then some (PyValue.list [], rest)
      else
        match parseJValue fuel s with
        | none => none
        | some (v, r1) => parseArrMore fuel [v] r1

/-- Further array elements after the first. -/
def parseArrMore : Nat → List PyValue → Str → Option (PyValue × Str)
  | 0, _, _ => none
  | fuel + 1, acc, s =>
    match skipWs s with
    | [] => none
    | c :: r =>
      if c = ']' then some (PyValue.list acc, r)
      else if c = ',' then
        match parseJValue fuel r with
        | none => none
        | some (v, r1) => parseArrMore fuel (acc ++ [v]) r1
      else none

end

/-- `json.loads`: parse one value and require only whitespace to remain. -/
def jsonLoads (s : Str) : Option PyValue :=
  match parseJValue (s.length + 1) s with
  | some (v, rest) => if (skipWs rest).isEmpty then some v else none
  | none => none

/-! ## The tool-call extractor (`mcpclient/tools/extraction.py`)

The pattern `TOOL:\s*([\w\-]+)\s*[\n\r]+\s*PARAMETERS:\s*({.*?})` (DOTALL)
is embedded as a deterministic matcher.  For this pattern, backtracking never
changes the outcome: `\s*` runs followed by a disjoint class take their
maximal munch, the run between the name and `PARAMETERS:` matches
`\s*[\n\r]+\s*` exactly when the maximal whitespace run contains a newline or
carriage return, and the lazy `{.*?}` group extends to the first `}` after
the brace.  `findall` scans left to right, resuming after each match. -/

/-- Attempt the tool pattern at the head of `s`; on success return the name
group, the parameters group (brace to first closing brace), and the
remainder of the text after the match. -/
def tryMatch (s : Str) : Option (Str × Str × Str) :=
  match dropLit ("TOOL:".data) s with
  | none => none
  | some s1 =>
    let s2 := s1.dropWhile isPyWs
    let name := s2.takeWhile isNameChar
    let s3 := s2.dropWhile isNameChar
    if name.isEmpty then none
    else
      let wsRun := s3.takeWhile isPyWs
      let s4 := s3.dropWhile isPyWs
      if !(wsRun.any (fun c => c = '\n' || c = '\r')) then none
      else
        match dropLit ("PARAMETERS:".data) s4 with
        | none => none
        | some s5 =>
          match s5.dropWhile isPyWs with
          | '{' :: s7 =>
            (match splitAtFirst '}' s7 with
             | some (inner, rest) => some (name, '{' :: (inner ++ ['}']), rest)
             | none => none)
          | _ => none

/-- `findall` over the tool pattern: scan every position left to right,
resuming after the end of each non-overlapping match. -/
def findMatchesAux : Nat → Str → List (Str × Str)
  | 0, _ => []
  | fuel + 1, s =>
    match tryMatch s with
    | some (name, span, rest) => (name, span) :: findMatchesAux fuel rest
    | none =>
      match s with
      | [] => []
      | _ :: t => findMatchesAux fuel t

/-- All matches of the tool pattern in `text` (name group, parameters group),
in document order. -/
def findMatches (text : Str) : List (Str × Str) := findMatchesAux text.length text

/-- The `type` entry of a property schema: absent, a single type name, or a
list of type names (`["string", "null"]`).  Python reads it with
`prop_schema.get("type")`. -/
inductive TypeField where
  | absent : TypeField
  | single : Str → TypeField
  | multi : List Str → TypeField

/-- One property of a tool's input schema (the keys the code reads). -/
structure PropSchema where
  type_ : TypeField := TypeField.absent
  description : Str := []

/-- A tool's `inputSchema` dict, restricted to the keys the code reads
(`properties`, `required`); an `Option` field models key presence. -/
structure ToolSchema where
  properties : Option (List (Str × PropSchema)) := Option.none
  required : Option (List Str) := Option.none

/-- A server-exposed tool as the extractor and validator see it. -/
structure Tool where
  name : Str
  description : Str := []
  inputSchema : Option ToolSchema := Option.none

/-- The primary loop of `extract_tool_calls`: one call per pattern match, in
document order; the parameter group is stripped of backticks and whitespace
and parsed as JSON, degrading to the empty mapping on parse failure. -/
def primaryCalls (text : Str) : List (Str × PyValue) :=
  (findMatches text).map (fun m =>
    let cleaned := pyStrip (stripBoth (fun c => c = '`') m.2)
    match jsonLoads cleaned with
    | some params => (pyStrip m.1, params)
    | none => (pyStrip m.1, PyValue.dict []))

/-- The lowercase fallback needle `f"use the {tool.name} tool".lower()`. -/
def toolMention (tool : Tool) : Str :=
  lowerStr (("use the ".data ++ tool.name) ++ " tool".data)

/-- `ToolExtractor.extract_tool_calls` (extraction.py lines 13–52).
`available_tools = []` also models the Python default `None` (both falsy). -/
def extract_tool_calls (text : Str) (available_tools : List Tool) :
    List (Str × PyValue) :=
  let tool_calls := primaryCalls text
  if tool_calls.isEmpty && !available_tools.isEmpty then
    available_tools.foldl (fun acc tool =>
      if containsSub (toolMention tool) (lowerStr text)
      then acc ++ [(tool.name, PyValue.dict [])] else acc) tool_calls
  else tool_calls

/-! ## Tool result formatting and argument validation
(`mcpclient/tools/execution.py`) -/

/-- Decimal digits of a natural number. -/
def natStr (n : Nat) : Str := Nat.toDigits 10 n

/-- Python `str(int)`. -/
def intStr (i : Int) : Str :=
  if i < 0 then '-' :: natStr i.natAbs else natStr i.natAbs

/-- The single-quote character (Python `repr` quotes strings with it). -/
def sq : Char := Char.ofNat 39

/-- Join string pieces with a separator (`sep.join(parts)`). -/
def joinSep (sep : Str) (parts : List Str) : Str := List.intercalate sep parts

mutual

/-- Python `repr` of a JSON-shaped value (strings quoted; no claim depends on
repr escaping inside strings). -/
def pyReprValue : PyValue → Str
  | PyValue.str s => sq :: s ++ [sq]
  | PyValue.int i => intStr i
  | PyValue.float lit => lit
  | PyValue.bool b => if b then "True".data else "False".data
  | PyValue.null => "None".data
  | PyValue.list xs => '[' :: joinSep (", ".data) (pyReprList xs) ++ [']']
  | PyValue.dict d => '{' :: joinSep (", ".data) (pyReprDict d) ++ ['}']

/-- `repr` of list elements. -/
def pyReprList : List PyValue → List Str
  | [] => []
  | x :: xs => pyReprValue x :: pyReprList xs

/-- `repr` of dict entries (`'key': value`). -/
def pyReprDict : PyDict → List Str
  | [] => []
  | (k, v) :: rest => ((sq :: k ++ [sq]) ++ ": ".data ++ pyReprValue v) :: pyReprDict rest

end

/-- Python `str` of a value (`str` of a string is itself, containers render
via `repr` of their elements). -/
def pyStrValue : PyValue → Str
  | PyValue.str s => s
  | v => pyReprValue v

/-- A content item of a raw tool result: optional `text` attribute, optional
`data` attribute, and its `str()` rendering. -/
structure RItem where
  text : Option Str := Option.none
  data : Option Str := Option.none
  strForm : Str := []

/-- The `content` attribute of a raw tool result. -/
inductive RContent where
  | str : Str → RContent
  | list : List RItem → RContent
  | other : Str → RContent

/-- A raw tool result: optional `content` attribute and its `str()`
rendering.  `RContent.other` carries `str(content)` for the non-string,
non-list case. -/
structure RawResult where
  content : Option RContent := Option.none
  strForm : Str := []

/-- `str(content).replace("\\n", "\n")`: rewrite each literal
backslash-n pair to a newline, left to right. -/
def unescapeNewlines : Str → Str
  | [] => []
  | '\\' :: 'n' :: rest => '\n' :: unescapeNewlines rest
  | c :: rest => c :: unescapeNewlines rest

/-- `ToolExecutor.format_tool_result` (execution.py lines 37–71). -/
def format_tool_result (result : RawResult) : Str :=
  match result.content with
  | some (RContent.str s) => s
  | some (RContent.list items) =>
    joinSep ("\n".data) (items.map (fun item =>
      match item.text with
      | some t => t
      | none =>
        match item.data with
        | some d => ("[Image/Data: ".data ++ d.take 20) ++ "...]".data
        | none => item.strForm))
  | some (RContent.other s) => unescapeNewlines s
  | none => result.strForm

/-! ### Argument validation

`validate_tool_args` copies the caller's dict (`processed_args =
args.copy()`) and writes coercions into the copy only.  To make that frame
property expressible, the embedding runs over an explicit heap of dict
objects addressed by references: the caller's dict sits at `argsRef`, the
copy is allocated at a fresh reference, and every write names the reference
it targets. -/

/-- A heap of Python dict objects, addressed by index. -/
abbrev Heap := List PyDict

/-- Read a dict object. -/
def heapGet (h : Heap) (r : Nat) : PyDict := h.getD r []

/-- Overwrite a dict object. -/
def heapSet (h : Heap) (r : Nat) (d : PyDict) : Heap := h.set r d

/-- `dict.copy()`: a fresh object with the same contents. -/
def copyDict (d : PyDict) : PyDict := d

/-- Python truthiness of the schema dict (restricted to the keys the code
reads): `not tool.inputSchema` is true for an empty dict. -/
def schemaTruthy (s : ToolSchema) : Bool :=
  s.properties.isSome || s.required.isSome

/-- Falsy `type` entries are skipped (`if not prop_type: continue`):
absent, empty string, empty list. -/
def typeFalsy : TypeField → Bool
  | TypeField.absent => true
  | TypeField.single t => t.isEmpty
  | TypeField.multi ts => ts.isEmpty

/-- `prop_type == "null" or (isinstance(prop_type, list) and "null" in
prop_type)`. -/
def typeIsNull : TypeField → Bool
  | TypeField.single t => t = "null".data
  | TypeField.multi ts => ts.any (fun t => t = "null".data)
  | TypeField.absent => false

/-- `isinstance(value, str)`. -/
def isStrInst : PyValue → Bool
  | PyValue.str _ => true
  | _ => false

/-- `isinstance(value, bool)`. -/
def isBoolInst : PyValue → Bool
  | PyValue.bool _ => true
  | _ => false

/-- `isinstance(value, int)` — Python `bool` is a subclass of `int`. -/
def isIntInst : PyValue → Bool
  | PyValue.int _ => true
  | PyValue.bool _ => true
  | _ => false

/-- `isinstance(value, (int, float))`. -/
def isNumInst : PyValue → Bool
  | PyValue.int _ => true
  | PyValue.float _ => true
  | PyValue.bool _ => true
  | _ => false

/-- `isinstance(value, list)`. -/
def isListInst : PyValue → Bool
  | PyValue.list _ => true
  | _ => false

/-- `isinstance(value, dict)`. -/
def isDictInst : PyValue → Bool
  | PyValue.dict _ => true
  | _ => false

/-- `int(s)` for a string: optional sign then decimal digits (Python also
accepts underscore grouping, which no claim exercises). -/
def parseIntLit (s : Str) : Option Int :=
  let t := pyStrip s
  let (neg, t1) := match t with
    | '-' :: u => (true, u)
    | '+' :: u => (false, u)
    | u => (false, u)
  if !t1.isEmpty && t1.all Char.isDigit then
    some (if neg then -(digitsToNat t1 : Int) else (digitsToNat t1 : Int))
  else none

/-- Exponent tail of a float literal (empty, or `e`/`E` with optional sign
and digits). -/
def expOk : Str → Bool
  | [] => true
  | e :: u =>
    (e = 'e' || e = 'E') &&
      (let u2 := match u with | '+' :: v => v | '-' :: v => v | v => v
       !u2.isEmpty && u2.all Char.isDigit)

/-- `float(s)` literal recognition: sign, digits with optional fraction, or
leading-dot fraction, optional exponent (Python additionally accepts
`inf`/`nan` spellings, which no claim exercises). -/
def isFloatLit (t : Str) : Bool :=
  let t1 := match t with | '-' :: u => u | '+' :: u => u | u => u
  let ip := t1.takeWhile Char.isDigit
  let r := t1.dropWhile Char.isDigit
  match r with
  | '.' :: u =>
    let fp := u.takeWhile Char.isDigit
    let r2 := u.dropWhile Char.isDigit
    (!ip.isEmpty || !fp.isEmpty) && expOk r2
  | _ => !ip.isEmpty && expOk r

/-- `float(value)` where `value` is not already numeric: only strings that
spell a float literal convert; anything else raises. -/
def pyFloat : PyValue → Option PyValue
  | PyValue.str s =>
    let t := pyStrip s
    if isFloatLit t then some (PyValue.float t) else none
  | _ => none

/-- Truncation toward zero of a float literal (`int(float)`). -/
def truncFloatLit (lit : Str) : Option Int :=
  let (neg, t1) := match lit with
    | '-' :: u => (true, u)
    | '+' :: u => (false, u)
    | u => (false, u)
  let ip := t1.takeWhile Char.isDigit
  let r1 := t1.dropWhile Char.isDigit
  let (fp, r2) := match r1 with
    | '.' :: u => (u.takeWhile Char.isDigit, u.dropWhile Char.isDigit)
    | _ => (([] : Str), r1)
  let ex : Int := match r2 with
    | e :: u =>
      if e = 'e' || e = 'E' then
        match u with
        | '-' :: v => -(digitsToNat (v.takeWhile Char.isDigit) : Int)
        | '+' :: v => (digitsToNat (v.takeWhile Char.isDigit) : Int)
        | v => (digitsToNat (v.takeWhile Char.isDigit) : Int)
      else 0
    | [] => 0
  let mant := digitsToNat (ip ++ fp)
  let scale : Int := ex - fp.length
  let mag : Nat := if 0 ≤ scale then mant * 10 ^ scale.toNat else mant / 10 ^ (-scale).toNat
  some (if neg then -(mag : Int) else (mag : Int))

/-- `int(value)` where `value` is not already an `int` instance: strings
parse, floats truncate toward zero, anything else raises. -/
def pyInt : PyValue → Option Int
  | PyValue.str s => parseIntLit s
  | PyValue.float lit => truncFloatLit lit
  | _ => none

/-- The required-field loop: first missing name yields the error. -/
def checkRequired (argsD : PyDict) : List Str → Option Str
  | [] => none
  | f :: rest =>
    if !dictHas argsD f then some ("Missing required field: ".data ++ f)
    else checkRequired argsD rest

/-- One property's type check/coercion (the `elif` chain of execution.py
lines 103–174): `Except.error` is the early `return False, None, msg`,
`Except.ok none` means no write, `Except.ok (some v)` writes `v` into
`processed_args`. -/
def coerceOne (prop_name : Str) (prop_schema : PropSchema) (value : PyValue) :
    Except Str (Option PyValue) :=
  let prop_type := prop_schema.type_
  if typeFalsy prop_type then Except.ok Option.none
  else
    match value with
    | PyValue.null =>
      if typeIsNull prop_type then Except.ok Option.none
      else Except.error (("Field ".data ++ prop_name) ++ " cannot be null".data)
    | _ =>
      match prop_type with
      | TypeField.single t =>
        if t = "string".data && !isStrInst value then
          Except.ok (some (PyValue.str (pyStrValue value)))
        else if t = "number".data && !isNumInst value then
          match pyFloat value with
          | some f => Except.ok (some f)
          | none => Except.error (("Field ".data ++ prop_name) ++ " must be a number".data)
        else if t = "integer".data && !isIntInst value then
          match pyInt value with
          | some i => Except.ok (some (PyValue.int i))
          | none => Except.error (("Field ".data ++ prop_name) ++ " must be an integer".data)
        else if t = "boolean".data && !isBoolInst value then
          match value with
          | PyValue.str s =>
            if lowerStr s = "true".data then Except.ok (some (PyValue.bool true))
            else if lowerStr s = "false".data then Except.ok (some (PyValue.bool false))
            else Except.error (("Field ".data ++ prop_name) ++ " must be a boolean".data)
          | _ => Except.error (("Field ".data ++ prop_name) ++ " must be a boolean".data)
        else if t = "array".data && !isListInst value then
          match value with
          | PyValue.str s =>
            (match pyStrip s with
             | '[' :: _ =>
               (match jsonLoads s with
                | some v => Except.ok (some v)
                | none => Except.error (("Field ".data ++ prop_name) ++ " must be an array".data))
             | _ => Except.error (("Field ".data ++ prop_name) ++ " must be an array".data))
          | _ => Except.error (("Field ".data ++ prop_name) ++ " must be an array".data)
        else if t = "object".data && !isDictInst value then
          match value with
          | PyValue.str s =>
            (match pyStrip s with
             | '{' :: _ =>
               (match jsonLoads s with
                | some v => Except.ok (some v)
                | none => Except.error (("Field ".data ++ prop_name) ++ " must be an object".data))
             | _ => Except.error (("Field ".data ++ prop_name) ++ " must be an object".data))
          | _ => Except.error (("Field ".data ++ prop_name) ++ " must be an object".data)
        else Except.ok Option.none
      | _ => Except.ok Option.none

/-- The property loop of `validate_tool_args`: read each declared property
from the caller's dict at `argsRef`, write coercions into the copy at
`procRef`; an error aborts the loop. -/
def coerceProps (argsRef procRef : Nat) :
    List (Str × PropSchema) → Heap → Heap × Option Str
  | [], h => (h, none)
  | (prop_name, prop_schema) :: rest, h =>
    if dictHas (heapGet h argsRef) prop_name then
      match coerceOne prop_name prop_schema (dictGet (heapGet h argsRef) prop_name) with
      | Except.error e => (h, some e)
      | Except.ok Option.none => coerceProps argsRef procRef rest h
      | Except.ok (some v) =>
        coerceProps argsRef procRef rest
          (heapSet h procRef (dictSet (heapGet h procRef) prop_name v))
    else coerceProps argsRef procRef rest h

/-- `ToolExecutor.validate_tool_args` (execution.py lines 73–176) over the
explicit heap: the caller's dict lives at `argsRef`; the result's middle
component is a reference to the returned dict object. -/
def validate_tool_args_run (tool : Tool) (h0 : Heap) (argsRef : Nat) :
    Heap × (Bool × Option Nat × Option Str) :=
  match tool.inputSchema with
  | none => (h0, (true, some argsRef, none))
  | some schema =>
    if !schemaTruthy schema then (h0, (true, some argsRef, none))
    else
      let procRef := h0.length
      let h := h0 ++ [copyDict (heapGet h0 argsRef)]
      match (match schema.required with
             | some req => checkRequired (heapGet h argsRef) req
             | none => none) with
      | some err => (h, (false, none, some err))
      | none =>
        match schema.properties with
        | none => (h, (true, some procRef, none))
        | some props =>
          match coerceProps argsRef procRef props h with
          | (h2, some err) => (h2, (false, none, some err))
          | (h2, none) => (h2, (true, some procRef, none))

/-- `validate_tool_args` as a pure function of the argument dict's contents:
run on a one-object heap and read the returned reference back. -/
def validate_tool_args (tool : Tool) (args : PyDict) :
    Bool × Option PyDict × Option Str :=
  match validate_tool_args_run tool [args] 0 with
  | (h, (ok, procRef, err)) => (ok, procRef.map (heapGet h), err)

/-! ## The streaming orchestration loop (`mcpclient/client.py`)

`process_query_streaming` drives an abstract language model and an abstract
session.  The model is a function from the conversation and the optional
tool-info string to the finite chunk sequence it streams plus an optional
error raised after those chunks; the session's `call_tool` is a function
from name and arguments to a raw result or a raised error.  The generator's
visible behaviour is the ordered list of yielded chunks. -/

/-- A conversation message (`{"role": ..., "content": ...}`). -/
structure Msg where
  role : Str
  content : Str

/-- One run of `generate_streaming`: the chunks it yields, then an optional
error it raises after them. -/
structure StreamOutcome where
  chunks : List Str
  error : Option Str := Option.none

/-- A language-model behaviour. -/
abbrev LLMFun := List Msg → Option Str → StreamOutcome

/-- A session's `call_tool` behaviour. -/
abbrev CallToolFun := Str → PyValue → Except Str RawResult

/-- `llm_response += chunk` accumulation over a chunk list. -/
def accumChunks (cs : List Str) : Str := cs.foldl (· ++ ·) []

/-- `MCPClient._format_tool_info` (client.py lines 77–107). -/
def format_tool_info (tools : List Tool) : Str :=
  let body := tools.foldl (fun acc tool =>
    let line := ((("- ".data ++ tool.name) ++ ": ".data) ++ tool.description) ++ "\n".data
    let params :=
      match tool.inputSchema with
      | some schema =>
        if schemaTruthy schema then
          match schema.properties with
          | some props =>
            "  Parameters:\n".data ++ props.foldl (fun acc2 p =>
              let required := match schema.required with
                | some req => req.any (fun f => f = p.1)
                | none => false
              let req_tag := if required then " (required)".data else ([] : Str)
              acc2 ++ (((("    - ".data ++ p.1) ++ req_tag) ++ ": ".data) ++
                p.2.description ++ "\n".data)) []
          | none => []
        else []
      | none => []
    (acc ++ line) ++ params) []
  ("\n\nAvailable tools:\n".data ++ body) ++
    ("\nTo call a tool, use this format in your response:\nTOOL: tool_name\nPARAMETERS: \x7b\"param1\": \"value1\", \"param2\": \"value2\"\x7d\n").data

/-- The tool-execution batch of `process_query_streaming` (client.py lines
232–254): for each extracted call in order, yield the usage notice, invoke
the tool, and append a `TOOL RESULT:` message on success or a `TOOL ERROR:`
message on failure. -/
def execCalls (callTool : CallToolFun) :
    List (Str × PyValue) → List Msg → List Str → List Msg × List Str
  | [], messages, out => (messages, out)
  | (tool_name, tool_args) :: rest, messages, out =>
    let out := out ++
      [(("\n\n🔧 Using tool: ".data ++ tool_name) ++ "\n📝 Parameters: ".data) ++
        pyStrValue tool_args]
    match callTool tool_name tool_args with
    | Except.ok result =>
      let result_text := format_tool_result result
      let out := out ++ [("\n📊 Result:\n".data ++ result_text)]
      let result_content := (("TOOL RESULT: ".data ++ tool_name) ++ "\n".data) ++ result_text
      execCalls callTool rest (messages ++ [⟨"user".data, result_content⟩]) out
    | Except.error e =>
      let out := out ++ [("\n❌ Error: ".data ++ e)]
      let error_content := (("TOOL ERROR: ".data ++ tool_name) ++ "\n".data) ++ e
      execCalls callTool rest (messages ++ [⟨"user".data, error_content⟩]) out

/-- Result of one `process_query_streaming` invocation: the final value of
`turn_count`, the conversation history, and the yielded chunks in order. -/
structure PQSResult where
  turns : Nat
  messages : List Msg
  output : List Str

/-- The `while turn_count < max_turns` loop of `process_query_streaming`
(client.py lines 202–254), with `fuel = max_turns - turn_count` as the
decreasing measure of the loop condition. -/
def pqsLoop (llm : LLMFun) (callTool : CallToolFun) (tools : List Tool)
    (tool_info : Str) : Nat → Nat → List Msg → List Str → PQSResult
  | 0, turn_count, messages, out => ⟨turn_count, messages, out⟩
  | fuel + 1, turn_count, messages, out =>
    let tc := turn_count + 1
    let out := if tc > 1 then out ++ ["\n\n".data] else out
    let st := llm messages (if tc = 1 then some tool_info else Option.none)
    let llm_response := accumChunks st.chunks
    let out := out ++ st.chunks
    match st.error with
    | some e => ⟨tc, messages, out ++ [(("\n\n❌ Error: ".data ++ e) ++ "\n".data)]⟩
    | none =>
      let messages := messages ++ [⟨"model".data, llm_response⟩]
      let tool_calls := extract_tool_calls llm_response tools
      if tool_calls.isEmpty then ⟨tc, messages, out⟩
      else
        match execCalls callTool tool_calls messages out with
        | (messages2, out2) => pqsLoop llm callTool tools tool_info fuel tc messages2 out2

/-- The configured turn cap (`max_turns = 10`). -/
def max_turns : Nat := 10

/-- `MCPClient.process_query_streaming` (client.py lines 172–258): seed the
conversation with the user query, run the turn loop, and append the
maximum-turns notice when the cap was reached. -/
def process_query_streaming (llm : LLMFun) (callTool : CallToolFun)
    (tools : List Tool) (query : Str) : PQSResult :=
  let tool_info := format_tool_info tools
  let messages : List Msg := [⟨"user".data, query⟩]
  let r := pqsLoop llm callTool tools tool_info max_turns 0 messages []
  if max_turns ≤ r.turns then
    ⟨r.turns, r.messages,
      r.output ++ [(("\n\n❌ Reached maximum number of turns (".data ++ natStr max_turns) ++ ").".data)]⟩
  else r

/-! ## Language-model adapters (`mcpclient/llm/gpt4o.py`, `gemini.py`)

A backend stream is the finite sequence of raw chunks the SDK produces
(`none` models a chunk without usable text, which the adapter skips) plus an
optional error the backend raises after those chunks.  An adapter run
records what the adapter generator yields and what it raises to its
consumer. -/

/-- Raw backend chunk sequence and an optional error raised at its end. -/
structure BackendStream where
  items : List (Option Str)
  error : Option Str := Option.none

/-- Observable behaviour of one adapter streaming run. -/
structure StreamRun where
  yielded : List Str
  raised : Option Str := Option.none

/-- `GptLLM.generate_streaming` (gpt4o.py lines 129–160): yield each chunk
with usable delta content; on a backend error, yield the formatted error as
a final chunk, then re-raise. -/
def gptGenerateStreaming (backend : BackendStream) : StreamRun :=
  let chunks := backend.items.filterMap id
  match backend.error with
  | none => ⟨chunks, Option.none⟩
  | some e => ⟨chunks ++ [(("\n[Error in LLM streaming: ".data ++ e) ++ "]".data)], some e⟩

/-- `GeminiLLM.generate_streaming` (gemini.py lines 122–141): yield each
chunk that has a `text` attribute; there is no exception handler, so a
backend error propagates without any further yield. -/
def geminiGenerateStreaming (backend : BackendStream) : StreamRun :=
  ⟨backend.items.filterMap id, backend.error⟩

/-! ## Session facade (`session.py`) and connector (`mcpclient/connectors/base.py`) -/

/-- `BaseConnector` state: `session` presence, the cached `_tools` list, and
the `_connected` flag. -/
structure BaseConnector where
  hasSession : Bool := false
  connectorTools : List Tool := []
  connected : Bool := false

/-- The `tools` property of `BaseConnector` (base.py lines 22–34): raises
when the connector is not connected. -/
def BaseConnector.tools (c : BaseConnector) : Except Str (List Tool) :=
  if !c.connected then Except.error ("Connector is not connected".data)
  else Except.ok c.connectorTools

/-- `MCPSession` state (session.py): the connector, the cached session info,
and the cached tool list, initialised to `[]` in `__init__`. -/
structure MCPSession where
  connector : BaseConnector
  session_info : Option Str := Option.none
  tools : List Tool := []

/-- `MCPSession.__init__`. -/
def MCPSession.init (connector : BaseConnector) : MCPSession :=
  { connector := connector }

/-- The `available_tools` property (session.py lines 58–65): returns the
cached list unconditionally. -/
def MCPSession.available_tools (s : MCPSession) : List Tool := s.tools

/-- `BaseConnector.initialize` (base.py lines 50–69): requires a session,
then caches the transport's tool list (`fetched` stands for the
`list_tools()` network reply). -/
def connectorInitialize (c : BaseConnector) (fetched : List Tool) :
    Except Str (Str × BaseConnector) :=
  if !c.hasSession then Except.error ("Not connected to MCP implementation".data)
  else Except.ok ("info".data, { c with connectorTools := fetched })

/-- `MCPSession.initialize` (session.py lines 36–44): run the connector's
initialize, then cache `connector.tools`. -/
def sessionInitialize (s : MCPSession) (fetched : List Tool) :
    Except Str MCPSession :=
  match connectorInitialize s.connector fetched with
  | Except.error e => Except.error e
  | Except.ok (info, c2) =>
    match c2.tools with
    | Except.error e => Except.error e
    | Except.ok ts =>
      Except.ok { s with connector := c2, session_info := some info, tools := ts }

/-! ## Specification-side comparison definitions -/

/-- Modelled from the spec (error-handling design, §4.5/§7): the message the
loop appends for one tool call — a `TOOL RESULT:`-tagged user message on
success, a `TOOL ERROR:`-tagged user message on failure. -/
def specToolMessage (callTool : CallToolFun) (call : Str × PyValue) : Msg :=
  match callTool call.1 call.2 with
  | Except.ok result =>
    ⟨"user".data, (("TOOL RESULT: ".data ++ call.1) ++ "\n".data) ++ format_tool_result result⟩
  | Except.error e =>
    ⟨"user".data, (("TOOL ERROR: ".data ++ call.1) ++ "\n".data) ++ e⟩

/-- Modelled from the spec (§4.5): the chunks the loop yields for one tool
call — the usage notice, then the formatted result or the formatted error. -/
def specToolYields (callTool : CallToolFun) (call : Str × PyValue) : List Str :=
  [(("\n\n🔧 Using tool: ".data ++ call.1) ++ "\n📝 Parameters: ".data) ++ pyStrValue call.2] ++
    match callTool call.1 call.2 with
    | Except.ok result => [("\n📊 Result:\n".data ++ format_tool_result result)]
    | Except.error e => [("\n❌ Error: ".data ++ e)]

/-- A tool whose schema declares one integer property `n` (claim C7). -/
def intTool : Tool :=
  { name := "calc".data,
    inputSchema := some
      { properties := some [("n".data, { type_ := TypeField.single ("integer".data) })] } }

/-! ## A rendered family of well-formed tool-call texts (for claim C2)

A constrained render of `TOOL:`/`PARAMETERS:` pairs with flat string-valued
JSON objects: names, keys and values over the lowercase letters, so the
object contains no closing brace before its final character and the text
contains the marker `TOOL:` only at pair starts. -/

/-- Lowercase ASCII letter. -/
def plainLower (c : Char) : Bool := 'a' ≤ c && c ≤ 'z'

/-- A valid rendered tool name: nonempty, lowercase letters. -/
def validName (n : Str) : Bool := !n.isEmpty && n.all plainLower

/-- A valid rendered object entry: nonempty lowercase key, lowercase value. -/
def validEntry (kv : Str × Str) : Bool :=
  (!kv.1.isEmpty && kv.1.all plainLower) && kv.2.all plainLower

/-- Render one `"key": "value"` member. -/
def renderEntry (kv : Str × Str) : Str :=
  '"' :: (kv.1 ++ ('"' :: ':' :: ' ' :: '"' :: (kv.2 ++ (['"'] : Str))))

/-- Render the members of an object after the first, each preceded by a
comma separator. -/
def objInnerSep : List (Str × Str) → Str
  | [] => []
  | kv :: rest => (',' :: ' ' :: renderEntry kv) ++ objInnerSep rest

/-- Render the members of an object (without the surrounding braces). -/
def objInner : List (Str × Str) → Str
  | [] => []
  | kv :: rest => renderEntry kv ++ objInnerSep rest

/-- Render a flat string-valued JSON object. -/
def renderObj (a : List (Str × Str)) : Str := '{' :: (objInner a ++ (['}'] : Str))

/-- Render one well-formed `TOOL:`/`PARAMETERS:` pair. -/
def renderPairText (p : Str × List (Str × Str)) : Str :=
  (("TOOL: ".data ++ p.1) ++ "\nPARAMETERS: ".data) ++ renderObj p.2

/-- Render a sequence of pairs separated by blank lines. -/
def renderConvText : List (Str × List (Str × Str)) → Str
  | [] => []
  | [p] => renderPairText p
  | p :: rest => (renderPairText p ++ "\n\n".data) ++ renderConvText rest

/-- The tool call a rendered pair should extract to: its name with the
parsed argument object. -/
def pairValue (p : Str × List (Str × Str)) : Str × PyValue :=
  (p.1, PyValue.dict (p.2.map (fun kv => (kv.1, PyValue.str kv.2))))

/-! # Theorems -/

/-- C7: for a schema declaring property `n` of type integer,
`validate_tool_args` coerces `{"n": "3"}` to `{"n": 3}` and rejects
`{"n": "abc"}` with a typed field-level error and no coerced arguments. -/
theorem C7_integer_coercion :
    validate_tool_args intTool [("n".data, PyValue.str ("3".data))]
        = (true, some [("n".data, PyValue.int 3)], Option.none) ∧
    validate_tool_args intTool [("n".data, PyValue.str ("abc".data))]
        = (false, Option.none, some ("Field n must be an integer".data)) :=
  ⟨rfl, rfl⟩

/-- C8: `format_tool_result` returns a plain-string `content` verbatim, and
joins the `text` sub-fields of a list `content` with newlines. -/
theorem C8_format_result (r1 r2 : RawResult) (i1 i2 : RItem)
    (h1 : r1.content = some (RContent.str ("hello".data)))
    (h2 : r2.content = some (RContent.list [i1, i2]))
    (ht1 : i1.text = some ("a".data)) (ht2 : i2.text = some ("b".data)) :
    format_tool_result r1 = "hello".data ∧ format_tool_result r2 = "a\nb".data := by
  constructor
  · simp [format_tool_result, h1]
  · simp [format_tool_result, h2, ht1, ht2, joinSep]
    decide

/-- Witness for C8 at concrete raw results. -/
theorem C8_format_result_witness :
    format_tool_result { content := some (RContent.str ("hello".data)) } = "hello".data ∧
    format_tool_result
        { content := some (RContent.list
            [{ text := some ("a".data) }, { text := some ("b".data) }]) } = "a\nb".data :=
  C8_format_result _ _ _ _ rfl rfl rfl rfl

/-- C9 counterexample: a freshly constructed session, before `initialize`,
returns the empty cached list from `available_tools` — the accessor returns
a value instead of failing. -/
theorem C9_available_tools_cex :
    MCPSession.available_tools (MCPSession.init { hasSession := true }) = [] := rfl

/-- C9 amended: before `initialize`, the session's `available_tools`
accessor returns the (initially empty) cached list without error; it is the
connector-level `tools` property that raises when the connector is not
connected. -/
theorem C9_available_tools_amended (c : BaseConnector) (h : c.connected = false) :
    MCPSession.available_tools (MCPSession.init c) = [] ∧
    BaseConnector.tools c = Except.error ("Connector is not connected".data) := by
  refine ⟨rfl, ?_⟩
  simp [BaseConnector.tools, h]

/-- Witness for the amended C9 at the default (disconnected) connector. -/
theorem C9_available_tools_amended_witness :
    MCPSession.available_tools (MCPSession.init {}) = [] ∧
    BaseConnector.tools {} = Except.error ("Connector is not connected".data) :=
  C9_available_tools_amended {} rfl

/-- C6 counterexample: on a backend error, the Gemini adapter yields no
final error chunk — its last yield is the last backend chunk — refuting the
claim that every adapter surfaces the error as a final visible chunk. -/
theorem C6_gemini_cex :
    (geminiGenerateStreaming { items := [some ("hi".data)], error := some ("boom".data) }).yielded
        = ["hi".data] ∧
    (geminiGenerateStreaming { items := [some ("hi".data)], error := some ("boom".data) }).raised
        = some ("boom".data) :=
  ⟨rfl, rfl⟩

/-- C6 amended: on a backend error during streaming, both adapters propagate
the failure to the consumer; `GptLLM` additionally yields the formatted
error as a final visible chunk first, while `GeminiLLM` yields no error
chunk. -/
theorem C6_streaming_error_amended (b : BackendStream) (e : Str)
    (h : b.error = some e) :
    (gptGenerateStreaming b).yielded
        = b.items.filterMap id ++ [(("\n[Error in LLM streaming: ".data ++ e) ++ "]".data)] ∧
    (gptGenerateStreaming b).raised = some e ∧
    (geminiGenerateStreaming b).yielded = b.items.filterMap id ∧
    (geminiGenerateStreaming b).raised = some e := by
  refine ⟨?_, ?_, rfl, h⟩ <;> simp [gptGenerateStreaming, h]

/-- Witness for the amended C6 at a concrete erroring backend stream. -/
theorem C6_streaming_error_amended_witness :
    (gptGenerateStreaming { items := [some ("hi".data)], error := some ("boom".data) }).yielded
        = ["hi".data] ++ [(("\n[Error in LLM streaming: ".data ++ "boom".data) ++ "]".data)] ∧
    (gptGenerateStreaming { items := [some ("hi".data)], error := some ("boom".data) }).raised
        = some ("boom".data) ∧
    (geminiGenerateStreaming { items := [some ("hi".data)], error := some ("boom".data) }).yielded
        = ["hi".data] ∧
    (geminiGenerateStreaming { items := [some ("hi".data)], error := some ("boom".data) }).raised
        = some ("boom".data) :=
  C6_streaming_error_amended _ _ rfl

/-- `set` at one index leaves other indices unchanged. -/
theorem heapGet_heapSet_ne (h : Heap) (i j : Nat) (d : PyDict) (hne : j ≠ i) :
    heapGet (heapSet h i d) j = heapGet h j := by
  induction h generalizing i j with
  | nil => simp [heapSet, heapGet]
  | cons a t ih =>
    cases i with
    | zero =>
      cases j with
      | zero => exact absurd rfl hne
      | succ j2 => simp [heapSet, heapGet, List.set]
    | succ i2 =>
      cases j with
      | zero => simp [heapSet, heapGet, List.set]
      | succ j2 =>
        simp only [heapSet, heapGet, List.set, List.getD_cons_succ]
        exact ih i2 j2 (fun hh => hne (by rw [hh]))

/-- Appending an object leaves existing indices unchanged. -/
theorem heapGet_append_lt (h : Heap) (d : PyDict) (j : Nat) (hj : j < h.length) :
    heapGet (h ++ [d]) j = heapGet h j := by
  induction h generalizing j with
  | nil => exact absurd hj (by simp)
  | cons a t ih =>
    cases j with
    | zero => simp [heapGet]
    | succ j2 =>
      simp only [heapGet, List.cons_append, List.getD_cons_succ]
      exact ih j2 (Nat.lt_of_succ_lt_succ hj)

/-- The coercion loop writes only to `procRef`. -/
theorem coerceProps_preserves (argsRef procRef : Nat)
    (props : List (Str × PropSchema)) (h : Heap) (hne : argsRef ≠ procRef) :
    heapGet (coerceProps argsRef procRef props h).1 argsRef = heapGet h argsRef := by
  induction props generalizing h with
  | nil => rfl
  | cons p rest ih =>
    simp only [coerceProps]
    by_cases hhas : dictHas (heapGet h argsRef) p.1 = true
    · simp only [hhas, if_pos]
      cases coerceOne p.1 p.2 (dictGet (heapGet h argsRef) p.1) with
      | error e => rfl
      | ok o =>
        cases o with
        | none => exact ih h
        | some v =>
          rw [ih]
          exact heapGet_heapSet_ne _ _ _ _ hne
    · simp only [Bool.not_eq_true] at hhas
      simp only [hhas, Bool.false_eq_true, if_neg, not_false_iff]
      exact ih h

/-- C10: `validate_tool_args` never mutates the caller's argument dict: all
coercions are written to the fresh copy, so the object at `argsRef` is
unchanged whether validation succeeds or fails. -/
theorem C10_no_mutation (tool : Tool) (h : Heap) (argsRef : Nat)
    (hlt : argsRef < h.length) :
    heapGet (validate_tool_args_run tool h argsRef).1 argsRef = heapGet h argsRef := by
  unfold validate_tool_args_run
  cases hs : tool.inputSchema with
  | none => rfl
  | some schema =>
    simp only
    by_cases htr : schemaTruthy schema = true
    case neg =>
      simp only [Bool.not_eq_true] at htr
      simp [htr]
    · simp only [htr, Bool.not_true, Bool.false_eq_true, if_neg, not_false_iff]
      have hne : argsRef ≠ h.length := Nat.ne_of_lt hlt
      have happ : heapGet (h ++ [copyDict (heapGet h argsRef)]) argsRef = heapGet h argsRef :=
        heapGet_append_lt h _ argsRef hlt
      cases hreq : (match schema.required with
                    | some req => checkRequired (heapGet (h ++ [copyDict (heapGet h argsRef)]) argsRef) req
                    | none => none) with
      | some err => simp only [hreq]; exact happ
      | none =>
        simp only [hreq]
        cases hp : schema.properties with
        | none => exact happ
        | some props =>
          simp only
          have hc := coerceProps_preserves argsRef h.length props
            (h ++ [copyDict (heapGet h argsRef)]) hne
          cases hcp : coerceProps argsRef h.length props (h ++ [copyDict (heapGet h argsRef)]) with
          | mk h2 errOpt =>
            cases errOpt with
            | none =>
              simp only
              rw [hcp] at hc
              exact hc.trans happ
            | some err =>
              simp only
              rw [hcp] at hc
              exact hc.trans happ

/-- Witness for C10: the coercing call on a one-object heap leaves the
caller's dict unchanged. -/
theorem C10_no_mutation_witness :
    heapGet (validate_tool_args_run intTool [[("n".data, PyValue.str ("3".data))]] 0).1 0
      = heapGet [[("n".data, PyValue.str ("3".data))]] 0 :=
  C10_no_mutation intTool _ 0 (by decide)

/-- The tool batch appends exactly one tagged message and yields exactly the
notice plus result/error chunks per call, for every call in order. -/
theorem execCalls_spec (callTool : CallToolFun) (calls : List (Str × PyValue))
    (messages : List Msg) (out : List Str) :
    (execCalls callTool calls messages out).1
        = messages ++ calls.map (specToolMessage callTool) ∧
    (execCalls callTool calls messages out).2
        = out ++ calls.flatMap (specToolYields callTool) := by
  induction calls generalizing messages out with
  | nil => simp [execCalls]
  | cons c rest ih =>
    obtain ⟨n, a⟩ := c
    simp only [execCalls]
    cases hct : callTool n a with
    | ok result =>
      obtain ⟨ih1, ih2⟩ := ih (messages ++ [⟨"user".data,
        (("TOOL RESULT: ".data ++ n) ++ "\n".data) ++ format_tool_result result⟩])
        ((out ++ [(("\n\n🔧 Using tool: ".data ++ n) ++ "\n📝 Parameters: ".data) ++
          pyStrValue a]) ++ [("\n📊 Result:\n".data ++ format_tool_result result)])
      constructor
      · rw [ih1]
        simp [specToolMessage, hct, List.append_assoc]
      · rw [ih2]
        simp [specToolYields, hct, List.append_assoc]
    | error e =>
      obtain ⟨ih1, ih2⟩ := ih (messages ++ [⟨"user".data,
        (("TOOL ERROR: ".data ++ n) ++ "\n".data) ++ e⟩])
        ((out ++ [(("\n\n🔧 Using tool: ".data ++ n) ++ "\n📝 Parameters: ".data) ++
          pyStrValue a]) ++ [("\n❌ Error: ".data ++ e)])
      constructor
      · rw [ih1]
        simp [specToolMessage, hct, List.append_assoc]
      · rw [ih2]
        simp [specToolYields, hct, List.append_assoc]

/-- C5: tool execution failures are recoverable at the loop level: the batch
processes every extracted call (none terminates it, none escapes), appending
a `TOOL RESULT:`-tagged message on success and a `TOOL ERROR:`-tagged message
on failure, and after the batch — whatever the call outcomes, including a
session whose every call raises — the loop proceeds to the next model turn. -/
theorem C5_tool_errors_recoverable (callTool : CallToolFun) :
    (∀ calls messages out,
      (execCalls callTool calls messages out).1
          = messages ++ calls.map (specToolMessage callTool) ∧
      (execCalls callTool calls messages out).2
          = out ++ calls.flatMap (specToolYields callTool)) ∧
    (∀ (llm : LLMFun) (tools : List Tool) (tool_info : Str) (fuel turn_count : Nat)
        (messages : List Msg) (out : List Str) (st : StreamOutcome)
        (calls : List (Str × PyValue)),
      st = llm messages (if turn_count + 1 = 1 then some tool_info else Option.none) →
      st.error = Option.none →
      calls = extract_tool_calls (accumChunks st.chunks) tools →
      calls.isEmpty = false →
      pqsLoop llm callTool tools tool_info (fuel + 1) turn_count messages out
        = pqsLoop llm callTool tools tool_info fuel (turn_count + 1)
            ((messages ++ [⟨"model".data, accumChunks st.chunks⟩])
              ++ calls.map (specToolMessage callTool))
            (((if turn_count + 1 > 1 then out ++ ["\n\n".data] else out) ++ st.chunks)
              ++ calls.flatMap (specToolYields callTool))) := by
  constructor
  · exact fun calls messages out => execCalls_spec callTool calls messages out
  · intro llm tools tool_info fuel turn_count messages out st calls hst herr hcalls hne
    simp only [pqsLoop]
    rw [← hst, herr]
    simp only [← hcalls, hne, Bool.false_eq_true, if_neg, not_false_iff]
    obtain ⟨e1, e2⟩ := execCalls_spec callTool calls
      (messages ++ [⟨"model".data, accumChunks st.chunks⟩])
      ((if turn_count + 1 > 1 then out ++ ["\n\n".data] else out) ++ st.chunks)
    rw [e1, e2]

/-- Witness for C5: a concrete one-call batch against an always-failing
session still reaches the next model turn with the error-tagged message. -/
theorem C5_tool_errors_recoverable_witness :
    pqsLoop (fun _ _ => ⟨[("TOOL: t\nPARAMETERS: \x7b\x7d").data], Option.none⟩)
        (fun _ _ => Except.error ("x".data)) [] [] 1 0 [] []
      = pqsLoop (fun _ _ => ⟨[("TOOL: t\nPARAMETERS: \x7b\x7d").data], Option.none⟩)
          (fun _ _ => Except.error ("x".data)) [] [] 0 1
          (([] ++ [⟨"model".data,
              accumChunks [("TOOL: t\nPARAMETERS: \x7b\x7d").data]⟩])
            ++ [("t".data, PyValue.dict [])].map
                (specToolMessage (fun _ _ => Except.error ("x".data))))
          (((if 0 + 1 > 1 then [] ++ ["\n\n".data] else []) ++
              [("TOOL: t\nPARAMETERS: \x7b\x7d").data])
            ++ [("t".data, PyValue.dict [])].flatMap
                (specToolYields (fun _ _ => Except.error ("x".data)))) :=
  (C5_tool_errors_recoverable (fun _ _ => Except.error ("x".data))).2
    (fun _ _ => ⟨[("TOOL: t\nPARAMETERS: \x7b\x7d").data], Option.none⟩)
    [] [] 0 0 [] [] ⟨[("TOOL: t\nPARAMETERS: \x7b\x7d").data], Option.none⟩
    [("t".data, PyValue.dict [])] rfl rfl rfl rfl

/-- The loop makes at most `turn_count + fuel` turns. -/
theorem pqsLoop_turns_le (llm : LLMFun) (callTool : CallToolFun)
    (tools : List Tool) (ti : Str) :
    ∀ fuel turn_count messages out,
      (pqsLoop llm callTool tools ti fuel turn_count messages out).turns
        ≤ turn_count + fuel := by
  intro fuel
  induction fuel with
  | zero => intro tc m o; simp [pqsLoop]
  | succ f ih =>
    intro tc m o
    simp only [pqsLoop]
    cases herr : (llm m (if tc + 1 = 1 then some ti else Option.none)).error with
    | some e => simp
    | none =>
      simp only
      by_cases hemp :
          (extract_tool_calls
            (accumChunks (llm m (if tc + 1 = 1 then some ti else Option.none)).chunks)
            tools).isEmpty = true
      · simp only [hemp, if_pos]
        simp
      · simp only [Bool.not_eq_true] at hemp
        simp only [hemp, Bool.false_eq_true, if_neg, not_false_iff]
        calc (pqsLoop llm callTool tools ti f (tc + 1) _ _).turns
            ≤ (tc + 1) + f := ih (tc + 1) _ _
          _ = tc + (f + 1) := by omega

/-- Under a model that always streams successfully and always produces a
nonempty tool-call batch, the loop consumes all its fuel. -/
theorem pqsLoop_turns_eq (llm : LLMFun) (callTool : CallToolFun)
    (tools : List Tool) (ti : Str)
    (H : ∀ messages tiq, (llm messages tiq).error = Option.none ∧
      (extract_tool_calls (accumChunks (llm messages tiq).chunks) tools).isEmpty = false) :
    ∀ fuel turn_count messages out,
      (pqsLoop llm callTool tools ti fuel turn_count messages out).turns
        = turn_count + fuel := by
  intro fuel
  induction fuel with
  | zero => intro tc m o; simp [pqsLoop]
  | succ f ih =>
    intro tc m o
    simp only [pqsLoop]
    obtain ⟨herr, hemp⟩ := H m (if tc + 1 = 1 then some ti else Option.none)
    rw [herr]
    simp only [hemp, Bool.false_eq_true, if_neg, not_false_iff]
    calc (pqsLoop llm callTool tools ti f (tc + 1) _ _).turns
        = (tc + 1) + f := ih (tc + 1) _ _
      _ = tc + (f + 1) := by omega

/-- C1: `process_query_streaming` performs at most 10 model turns for every
model and session behaviour; and if the model's text on every turn yields a
nonempty tool-call batch, the loop terminates exactly at turn 10 and the
maximum-turns notice is among the yielded chunks. -/
theorem C1_turn_cap (llm : LLMFun) (callTool : CallToolFun)
    (tools : List Tool) (query : Str) :
    (process_query_streaming llm callTool tools query).turns ≤ 10 ∧
    ((∀ messages ti, (llm messages ti).error = Option.none ∧
        (extract_tool_calls (accumChunks (llm messages ti).chunks) tools).isEmpty = false) →
      (process_query_streaming llm callTool tools query).turns = 10 ∧
      (("\n\n❌ Reached maximum number of turns (".data ++ natStr max_turns) ++ ").".data)
        ∈ (process_query_streaming llm callTool tools query).output) := by
  constructor
  · have hle := pqsLoop_turns_le llm callTool tools (format_tool_info tools)
      max_turns 0 [⟨"user".data, query⟩] []
    simp only [process_query_streaming]
    split
    · simpa [max_turns] using hle
    · simpa [max_turns] using hle
  · intro H
    have heq := pqsLoop_turns_eq llm callTool tools (format_tool_info tools) H
      max_turns 0 [⟨"user".data, query⟩] []
    simp only [process_query_streaming]
    rw [if_pos (by rw [heq]; simp)]
    constructor
    · simpa [max_turns] using heq
    · simp

/-- Witness for C1: a model that always emits a no-argument tool marker,
against an always-failing session, terminates exactly at turn 10 with the
maximum-turns notice. -/
theorem C1_turn_cap_witness :
    (process_query_streaming
        (fun _ _ => ⟨[("TOOL: t\nPARAMETERS: \x7b\x7d").data], Option.none⟩)
        (fun _ _ => Except.error ("x".data)) [] ("q".data)).turns = 10 ∧
    (("\n\n❌ Reached maximum number of turns (".data ++ natStr max_turns) ++ ").".data)
      ∈ (process_query_streaming
          (fun _ _ => ⟨[("TOOL: t\nPARAMETERS: \x7b\x7d").data], Option.none⟩)
          (fun _ _ => Except.error ("x".data)) [] ("q".data)).output :=
  (C1_turn_cap _ _ _ _).2 (fun _ _ => ⟨rfl, rfl⟩)

/-- When the primary pattern produced at least one call, the fallback branch
is skipped. -/
theorem extract_eq_primary (text : Str) (tools : List Tool)
    (h : (primaryCalls text).isEmpty = false) :
    extract_tool_calls text tools = primaryCalls text := by
  simp [extract_tool_calls, h]

/-- C3: for every pattern match whose parameters group is not valid JSON,
`extract_tool_calls` still returns a ToolCall for that name, at that match's
position, with an empty argument mapping — it never drops the call (one call
per match) and never raises. -/
theorem C3_invalid_json_lenient (text : Str) (tools : List Tool) (i : Nat)
    (hi : i < (findMatches text).length)
    (hbad : jsonLoads (pyStrip (stripBoth (fun c => c = '`')
        ((findMatches text).get ⟨i, hi⟩).2)) = Option.none) :
    (extract_tool_calls text tools).length = (findMatches text).length ∧
    (extract_tool_calls text tools)[i]?
        = some (pyStrip ((findMatches text).get ⟨i, hi⟩).1, PyValue.dict []) := by
  have hlen : (primaryCalls text).length = (findMatches text).length := by
    simp [primaryCalls]
  have hne : (primaryCalls text).isEmpty = false := by
    cases hp : primaryCalls text with
    | nil => rw [hp] at hlen; simp at hlen; omega
    | cons a l => rfl
  rw [extract_eq_primary text tools hne]
  refine ⟨hlen, ?_⟩
  simp only [primaryCalls]
  rw [List.getElem?_map]
  rw [List.getElem?_eq_getElem hi]
  rw [List.get_eq_getElem] at hbad
  simp [hbad]

/-- Witness for C3: a match whose parameters span `{oops}` is invalid JSON
still yields a call with empty arguments. -/
theorem C3_invalid_json_lenient_witness :
    (extract_tool_calls (("TOOL: t\nPARAMETERS: \x7boops\x7d").data) []).length
        = (findMatches (("TOOL: t\nPARAMETERS: \x7boops\x7d").data)).length ∧
    (extract_tool_calls (("TOOL: t\nPARAMETERS: \x7boops\x7d").data) [])[0]?
        = some (pyStrip ((findMatches (("TOOL: t\nPARAMETERS: \x7boops\x7d").data)).get
            ⟨0, by decide⟩).1, PyValue.dict []) :=
  C3_invalid_json_lenient _ [] 0 (by decide) rfl

/-- The fallback loop appends one empty-argument call per mentioned tool. -/
theorem fallback_foldl (text : Str) (tools : List Tool)
    (acc : List (Str × PyValue)) :
    tools.foldl (fun acc tool =>
      if containsSub (toolMention tool) (lowerStr text)
      then acc ++ [(tool.name, PyValue.dict [])] else acc) acc
    = acc ++ (tools.filter (fun t => containsSub (toolMention t) (lowerStr text))).map
        (fun t => (t.name, PyValue.dict [])) := by
  induction tools generalizing acc with
  | nil => simp
  | cons t rest ih =>
    simp only [List.foldl_cons, List.filter_cons]
    by_cases hc : containsSub (toolMention t) (lowerStr text) = true
    · simp only [hc, if_pos]
      rw [ih]
      simp
    · simp only [hc, Bool.false_eq_true, if_neg, not_false_iff]
      exact ih acc

/-- With unique tool names, the tools that match both the mention test and a
fixed name reduce to that one tool. -/
theorem filter_mention_name_eq (tools : List Tool) (X : Tool) (text : Str)
    (hnd : (tools.map Tool.name).Nodup) (hX : X ∈ tools)
    (hm : containsSub (toolMention X) (lowerStr text) = true) :
    tools.filter (fun t => (t.name == X.name) &&
        containsSub (toolMention t) (lowerStr text)) = [X] := by
  induction tools with
  | nil => cases hX
  | cons t rest ih =>
    simp only [List.map_cons, List.nodup_cons] at hnd
    obtain ⟨hnin, hnd2⟩ := hnd
    rcases List.mem_cons.mp hX with rfl | hXr
    · have hp : ((X.name == X.name) &&
          containsSub (toolMention X) (lowerStr text)) = true := by
        simp [hm]
      rw [List.filter_cons]
      simp only [hp, if_pos]
      have hrest : rest.filter (fun u => (u.name == X.name) &&
          containsSub (toolMention u) (lowerStr text)) = [] := by
        rw [List.filter_eq_nil_iff]
        intro u hu
        have hune : u.name ≠ X.name := by
          intro he
          exact hnin (he ▸ List.mem_map_of_mem Tool.name hu)
        simp [hune]
      rw [hrest]
    · have hXname : X.name ∈ rest.map Tool.name := List.mem_map_of_mem Tool.name hXr
      have htne : (t.name == X.name) = false := by
        rw [beq_eq_false_iff_ne]
        intro he
        exact hnin (he ▸ hXname)
      rw [List.filter_cons]
      simp only [htne, Bool.false_and, Bool.false_eq_true, if_neg, not_false_iff]
      exact ih hnd2 hXr

/-- C4: when the primary pattern yields zero matches and a nonempty tool
list with unique names is supplied, a tool whose case-insensitive mention
`use the X tool` appears in the text contributes exactly one empty-argument
ToolCall; and whenever the primary pattern produced at least one call, the
fallback never runs. -/
theorem C4_fallback (text : Str) (tools : List Tool) (X : Tool) :
    ((findMatches text).isEmpty = true → tools ≠ [] →
      (tools.map Tool.name).Nodup → X ∈ tools →
      containsSub (toolMention X) (lowerStr text) = true →
      (extract_tool_calls text tools).filter (fun c => c.1 == X.name)
          = [(X.name, PyValue.dict [])]) ∧
    ((findMatches text).isEmpty = false →
      extract_tool_calls text tools = primaryCalls text) := by
  constructor
  · intro hzero htne hnd hX hm
    have hfm : findMatches text = [] := List.isEmpty_iff.mp hzero
    have hpc : primaryCalls text = [] := by simp [primaryCalls, hfm]
    have htools : tools.isEmpty = false := by
      cases tools with
      | nil => exact absurd rfl htne
      | cons a l => rfl
    simp only [extract_tool_calls, hpc, List.isEmpty_nil, htools, Bool.not_false,
      Bool.and_self, if_pos]
    rw [fallback_foldl]
    simp only [List.nil_append]
    rw [List.filter_map]
    have hcomp : ((fun c : Str × PyValue => c.1 == X.name) ∘
        (fun t : Tool => (t.name, PyValue.dict []))) =
        (fun t : Tool => t.name == X.name) := rfl
    rw [hcomp, List.filter_filter]
    rw [filter_mention_name_eq tools X text hnd hX hm]
    rfl
  · intro hsome
    apply extract_eq_primary
    simp only [primaryCalls]
    cases hp : findMatches text with
    | nil => rw [hp] at hsome; simp at hsome
    | cons a l => rfl

/-- Witness for C4 at a text mentioning a known tool without any pattern
match. -/
theorem C4_fallback_witness :
    (extract_tool_calls (("please use the Add tool").data)
        [{ name := "add".data }]).filter
          (fun c => c.1 == ({ name := "add".data } : Tool).name)
      = [(("add".data : Str), PyValue.dict [])] :=
  (C4_fallback (("please use the Add tool").data) [{ name := "add".data }]
      { name := "add".data }).1
    (by decide) (by simp) (by decide) (List.mem_cons_self _ _) (by decide)

theorem plainLower_ne (c d : Char) (h : plainLower c = true)
    (hd : plainLower d = false) : c ≠ d := by
  intro he
  rw [he, hd] at h
  exact Bool.false_ne_true h

theorem plainLower_not_pyWs (c : Char) (h : plainLower c = true) :
    isPyWs c = false := by
  simp only [isPyWs, Bool.or_eq_false_iff, decide_eq_false_iff_not]
  exact ⟨⟨⟨⟨⟨plainLower_ne c ' ' h (by decide), plainLower_ne c '\t' h (by decide)⟩,
    plainLower_ne c '\n' h (by decide)⟩, plainLower_ne c '\r' h (by decide)⟩,
    plainLower_ne c '\x0b' h (by decide)⟩, plainLower_ne c '\x0c' h (by decide)⟩

theorem plainLower_not_jsonWs (c : Char) (h : plainLower c = true) :
    jsonWs c = false := by
  simp only [jsonWs, Bool.or_eq_false_iff, decide_eq_false_iff_not]
  exact ⟨⟨⟨plainLower_ne c ' ' h (by decide), plainLower_ne c '\t' h (by decide)⟩,
    plainLower_ne c '\n' h (by decide)⟩, plainLower_ne c '\r' h (by decide)⟩

theorem plainLower_nameChar (c : Char) (h : plainLower c = true) :
    isNameChar c = true := by
  simp only [isNameChar, isWordChar, plainLower] at h ⊢
  simp [h]

theorem dropWhile_head_false (p : Char → Bool) (c : Char) (t : Str)
    (h : p c = false) : (c :: t).dropWhile p = c :: t := by
  simp [List.dropWhile, h]

theorem skipWs_cons_false (c : Char) (t : Str) (h : jsonWs c = false) :
    skipWs (c :: t) = c :: t :=
  dropWhile_head_false jsonWs c t h

theorem skipWs_cons_true (c : Char) (t : Str) (h : jsonWs c = true) :
    skipWs (c :: t) = skipWs t := by
  simp [skipWs, List.dropWhile, h]

theorem parseJStr_plain (k : Str) (hk : k.all plainLower = true) (rest : Str) :
    parseJStr (k ++ '"' :: rest) = some (k, rest) := by
  induction k with
  | nil =>
    rw [List.nil_append, parseJStr.eq_def]
    simp
  | cons c t ih =>
    simp only [List.all_cons, Bool.and_eq_true] at hk
    obtain ⟨hc, ht⟩ := hk
    have h1 : c ≠ '"' := plainLower_ne c '"' hc (by decide)
    have h2 : c ≠ '\\' := plainLower_ne c '\\' hc (by decide)
    rw [List.cons_append, parseJStr.eq_def]
    simp only [if_neg h1, if_neg h2, ih ht, Option.map_some']

theorem splitAtFirst_append (ch : Char) (x y : Str) (hx : ∀ c ∈ x, c ≠ ch) :
    splitAtFirst ch (x ++ ch :: y) = some (x, y) := by
  induction x with
  | nil => simp [splitAtFirst]
  | cons c t ih =>
    have hc : c ≠ ch := hx c (by simp)
    rw [List.cons_append, splitAtFirst.eq_def]
    simp only [if_neg hc]
    simp [ih (fun d hd => hx d (by simp [hd]))]

theorem validName_parts (n : Str) (h : validName n = true) :
    n.isEmpty = false ∧ n.all plainLower = true := by
  simp only [validName, Bool.and_eq_true, Bool.not_eq_true'] at h
  exact h

theorem validEntry_parts (kv : Str × Str) (h : validEntry kv = true) :
    kv.1.isEmpty = false ∧ kv.1.all plainLower = true ∧ kv.2.all plainLower = true := by
  simp only [validEntry, Bool.and_eq_true, Bool.not_eq_true'] at h
  exact ⟨h.1.1, h.1.2, h.2⟩

theorem renderEntry_chars (kv : Str × Str) (c : Char) (hc : c ∈ renderEntry kv) :
    c = '"' ∨ c = ':' ∨ c = ' ' ∨ c ∈ kv.1 ∨ c ∈ kv.2 := by
  simp only [renderEntry, List.mem_cons, List.mem_append] at hc
  tauto

theorem objInnerSep_chars (a : List (Str × Str)) (c : Char)
    (hc : c ∈ objInnerSep a) :
    c = ',' ∨ c = ' ' ∨ ∃ kv ∈ a, c ∈ renderEntry kv := by
  induction a with
  | nil => cases hc
  | cons kv rest ih =>
    simp only [objInnerSep, List.cons_append, List.mem_cons, List.mem_append] at hc
    rcases hc with rfl | rfl | hr | hs
    · left; rfl
    · right; left; rfl
    · right; right; exact ⟨kv, List.mem_cons_self kv rest, hr⟩
    · rcases ih hs with h1 | h2 | ⟨u, hu, hcu⟩
      · left; exact h1
      · right; left; exact h2
      · right; right; exact ⟨u, List.mem_cons_of_mem kv hu, hcu⟩

theorem objInner_chars (a : List (Str × Str)) (c : Char) (hc : c ∈ objInner a) :
    c = ',' ∨ c = ' ' ∨ ∃ kv ∈ a, c ∈ renderEntry kv := by
  cases a with
  | nil => cases hc
  | cons kv rest =>
    simp only [objInner, List.mem_append] at hc
    rcases hc with hr | hs
    · right; right; exact ⟨kv, List.mem_cons_self kv rest, hr⟩
    · rcases objInnerSep_chars rest c hs with h1 | h2 | ⟨u, hu, hcu⟩
      · left; exact h1
      · right; left; exact h2
      · right; right; exact ⟨u, List.mem_cons_of_mem kv hu, hcu⟩

theorem objInner_no_brace (a : List (Str × Str))
    (hval : ∀ kv ∈ a, validEntry kv = true) :
    ∀ c ∈ objInner a, c ≠ '}' := by
  intro c hc
  rcases objInner_chars a c hc with rfl | rfl | ⟨kv, hkv, hcr⟩
  · decide
  · decide
  · obtain ⟨_, hk, hv⟩ := validEntry_parts kv (hval kv hkv)
    rcases renderEntry_chars kv c hcr with rfl | rfl | rfl | h1 | h2
    · decide
    · decide
    · decide
    · exact plainLower_ne c '}' (List.all_eq_true.mp hk c h1) (by decide)
    · exact plainLower_ne c '}' (List.all_eq_true.mp hv c h2) (by decide)

theorem objInnerSep_length_ge (r : List (Str × Str)) :
    r.length ≤ (objInnerSep r).length := by
  induction r with
  | nil => simp [objInnerSep]
  | cons kv rest ih =>
    simp only [objInnerSep, renderEntry, List.length_cons, List.length_append]
    simp at ih ⊢
    omega

theorem renderObj_length_ge (a : List (Str × Str)) :
    a.length + 1 ≤ (renderObj a).length := by
  cases a with
  | nil => simp [renderObj, objInner]
  | cons kv rest =>
    have := objInnerSep_length_ge rest
    simp only [renderObj, objInner, renderEntry, List.length_cons, List.length_append] at *
    simp at *
    omega

theorem parseJValue_strVal (fuel : Nat) (v rest : Str)
    (hv : v.all plainLower = true) :
    parseJValue (fuel + 1) (' ' :: '"' :: (v ++ '"' :: rest))
      = some (PyValue.str v, rest) := by
  simp only [parseJValue]
  rw [skipWs_cons_true ' ' _ (by decide), skipWs_cons_false '"' _ (by decide)]
  simp only [if_neg (by decide : ¬('"' : Char) = '{'),
    if_neg (by decide : ¬('"' : Char) = '['), if_pos rfl]
  rw [parseJStr_plain v hv]
  rfl

theorem parseObjMore_render (rest : List (Str × Str)) :
    ∀ (acc : PyDict) (fuel : Nat),
      (∀ kv ∈ rest, validEntry kv = true) → rest.length + 1 ≤ fuel →
      parseObjMore fuel acc (objInnerSep rest ++ (['}'] : Str))
        = some (PyValue.dict
            (rest.foldl (fun d kv => dictSet d kv.1 (PyValue.str kv.2)) acc), []) := by
  induction rest with
  | nil =>
    intro acc fuel _ hf
    cases fuel with
    | zero => omega
    | succ f => rfl
  | cons kv rest2 ih =>
    intro acc fuel hval hf
    cases fuel with
    | zero => omega
    | succ f =>
      obtain ⟨hk1, hkall, hvall⟩ := validEntry_parts kv (hval kv (List.mem_cons_self kv rest2))
      simp only [objInnerSep, renderEntry, List.cons_append, List.append_assoc]
      simp only [parseObjMore]
      rw [skipWs_cons_false ',' _ (by decide)]
      simp only [if_neg (by decide : ¬(',' : Char) = '}'), if_pos rfl]
      rw [skipWs_cons_true ' ' _ (by decide), skipWs_cons_false '"' _ (by decide)]
      simp only [if_pos rfl]
      rw [parseJStr_plain kv.1 hkall]
      simp only []
      rw [skipWs_cons_false ':' _ (by decide)]
      simp only [if_pos rfl]
      cases f with
      | zero => simp only [List.length_cons] at hf; omega
      | succ f2 =>
        rw [parseJValue_strVal f2 kv.2 _ hvall]
        simp only [List.nil_append, if_true]
        rw [ih (dictSet acc kv.1 (PyValue.str kv.2)) (f2 + 1)
          (fun u hu => hval u (List.mem_cons_of_mem kv hu))
          (by simp only [List.length_cons] at hf; omega)]
        simp

theorem parseObjBody_render (a : List (Str × Str)) (fuel : Nat)
    (hval : ∀ kv ∈ a, validEntry kv = true) (hf : a.length + 1 ≤ fuel) :
    parseObjBody fuel (objInner a ++ (['}'] : Str))
      = some (PyValue.dict
          (a.foldl (fun d kv => dictSet d kv.1 (PyValue.str kv.2)) []), []) := by
  cases a with
  | nil =>
    cases fuel with
    | zero => omega
    | succ f => rfl
  | cons kv rest2 =>
    cases fuel with
    | zero => simp only [List.length_cons] at hf; omega
    | succ f =>
      obtain ⟨hk1, hkall, hvall⟩ := validEntry_parts kv (hval kv (List.mem_cons_self kv rest2))
      simp only [objInner, renderEntry, List.cons_append, List.append_assoc]
      simp only [parseObjBody]
      rw [skipWs_cons_false '"' _ (by decide)]
      simp only [if_neg (by decide : ¬('"' : Char) = '}'), if_pos rfl]
      rw [parseJStr_plain kv.1 hkall]
      simp only []
      rw [skipWs_cons_false ':' _ (by decide)]
      simp only [if_pos rfl]
      cases f with
      | zero => simp only [List.length_cons] at hf; omega
      | succ f2 =>
        rw [parseJValue_strVal f2 kv.2 _ hvall]
        simp only [List.nil_append, if_true]
        rw [parseObjMore_render rest2 (dictSet [] kv.1 (PyValue.str kv.2)) (f2 + 1)
          (fun u hu => hval u (List.mem_cons_of_mem kv hu))
          (by simp only [List.length_cons] at hf; omega)]
        simp

theorem parseJValue_renderObj (a : List (Str × Str)) (fuel : Nat)
    (hval : ∀ kv ∈ a, validEntry kv = true) (hf : a.length + 2 ≤ fuel) :
    parseJValue fuel (renderObj a)
      = some (PyValue.dict
          (a.foldl (fun d kv => dictSet d kv.1 (PyValue.str kv.2)) []), []) := by
  cases fuel with
  | zero => omega
  | succ f =>
    simp only [parseJValue, renderObj]
    rw [skipWs_cons_false '{' _ (by decide)]
    simp only [if_pos rfl]
    exact parseObjBody_render a f hval (by omega)

theorem dictSet_not_has (d : PyDict) (k : Str) (v : PyValue)
    (h : dictHas d k = false) : dictSet d k v = d ++ [(k, v)] := by
  induction d with
  | nil => rfl
  | cons kv rest ih =>
    simp only [dictHas, List.any_cons, Bool.or_eq_false_iff, decide_eq_false_iff_not] at h
    simp only [dictSet, if_neg h.1, List.cons_append]
    rw [ih]
    simp only [dictHas]
    exact h.2

theorem dictHas_append (x y : PyDict) (k : Str) :
    dictHas (x ++ y) k = (dictHas x k || dictHas y k) := by
  simp [dictHas, List.any_append]

theorem foldl_dictSet_map (a : List (Str × Str)) :
    ∀ acc : PyDict,
      (∀ kv ∈ a, dictHas acc kv.1 = false) → (a.map Prod.fst).Nodup →
      a.foldl (fun d kv => dictSet d kv.1 (PyValue.str kv.2)) acc
        = acc ++ a.map (fun kv => (kv.1, PyValue.str kv.2)) := by
  induction a with
  | nil => intro acc _ _; simp
  | cons kv rest ih =>
    intro acc hacc hnd
    simp only [List.map_cons, List.nodup_cons] at hnd
    obtain ⟨hnin, hnd2⟩ := hnd
    simp only [List.foldl_cons]
    rw [dictSet_not_has acc kv.1 _ (hacc kv (List.mem_cons_self kv rest))]
    rw [ih (acc ++ [(kv.1, PyValue.str kv.2)]) ?_ hnd2]
    · simp
    · intro u hu
      rw [dictHas_append]
      have h1 : dictHas acc u.1 = false := hacc u (List.mem_cons_of_mem kv hu)
      have h2 : dictHas [(kv.1, PyValue.str kv.2)] u.1 = false := by
        have : kv.1 ≠ u.1 := by
          intro he
          exact hnin (he ▸ List.mem_map_of_mem Prod.fst hu)
        simp [dictHas, this]
      rw [h1, h2]
      rfl

theorem jsonLoads_renderObj (a : List (Str × Str))
    (hval : ∀ kv ∈ a, validEntry kv = true) (hnd : (a.map Prod.fst).Nodup) :
    jsonLoads (renderObj a)
      = some (PyValue.dict (a.map (fun kv => (kv.1, PyValue.str kv.2)))) := by
  unfold jsonLoads
  have hfuel : a.length + 2 ≤ (renderObj a).length + 1 := by
    have := renderObj_length_ge a
    omega
  rw [parseJValue_renderObj a _ hval hfuel]
  rw [foldl_dictSet_map a [] (fun kv _ => rfl) hnd]
  rfl



theorem dropWhile_append_neg (p : Char → Bool) (x y : Str) (hx : x ≠ [])
    (h : ∀ c ∈ x, p c = false) : (x ++ y).dropWhile p = x ++ y := by
  cases x with
  | nil => exact absurd rfl hx
  | cons c t =>
    rw [List.cons_append]
    exact dropWhile_head_false p c _ (h c (List.mem_cons_self c t))

theorem isEmpty_false_ne_nil (n : Str) (h : n.isEmpty = false) : n ≠ [] := by
  cases n with
  | nil => simp at h
  | cons c t => simp

theorem tryMatch_render (n : Str) (a : List (Str × Str)) (rest : Str)
    (hn : validName n = true) (hv : ∀ kv ∈ a, validEntry kv = true) :
    tryMatch (renderPairText (n, a) ++ rest) = some (n, renderObj a, rest) := by
  obtain ⟨hne, hlow⟩ := validName_parts n hn
  have hn0 : n ≠ [] := isEmpty_false_ne_nil n hne
  have hnws : ∀ c ∈ n, isPyWs c = false :=
    fun c hc => plainLower_not_pyWs c (List.all_eq_true.mp hlow c hc)
  have hname : ∀ c ∈ n, isNameChar c = true :=
    fun c hc => plainLower_nameChar c (List.all_eq_true.mp hlow c hc)
  simp only [renderPairText, renderObj, List.append_assoc, List.cons_append,
    List.nil_append]
  simp only [tryMatch]
  rw [show ∀ X : Str, dropLit ("TOOL:".data)
      ('T' :: 'O' :: 'O' :: 'L' :: ':' :: ' ' :: X) = some (' ' :: X)
    from fun _ => rfl]
  simp only []
  rw [show ∀ X : Str, List.dropWhile isPyWs (' ' :: X) = List.dropWhile isPyWs X
    from fun _ => rfl]
  rw [dropWhile_append_neg isPyWs n _ hn0 hnws]
  rw [List.takeWhile_append_of_pos hname]
  rw [show ∀ Y : Str, List.takeWhile isNameChar ('\n' :: Y) = [] from fun _ => rfl]
  rw [List.append_nil]
  rw [List.dropWhile_append_of_pos hname]
  rw [show ∀ Y : Str, List.dropWhile isNameChar ('\n' :: Y) = '\n' :: Y
    from fun _ => rfl]
  simp only [hne, Bool.false_eq_true, if_false]
  rw [show ∀ Z : Str, List.takeWhile isPyWs ('\n' :: 'P' :: Z) = ['\n']
    from fun _ => rfl]
  rw [show ∀ Z : Str, List.dropWhile isPyWs ('\n' :: 'P' :: Z) = 'P' :: Z
    from fun _ => rfl]
  simp only [show ((['\n'] : Str).any (fun c => c = '\n' || c = '\r')) = true from rfl,
    Bool.not_true, Bool.false_eq_true, if_false]
  rw [show ∀ X : Str, dropLit ("PARAMETERS:".data)
      ('P' :: 'A' :: 'R' :: 'A' :: 'M' :: 'E' :: 'T' :: 'E' :: 'R' :: 'S' :: ':' :: ' ' :: X)
      = some (' ' :: X) from fun _ => rfl]
  simp only []
  rw [show ∀ Z : Str, List.dropWhile isPyWs (' ' :: '{' :: Z) = '{' :: Z
    from fun _ => rfl]
  simp only []
  rw [splitAtFirst_append '}' (objInner a) rest (objInner_no_brace a hv)]



theorem findMatchesAux_nil (fuel : Nat) : findMatchesAux fuel [] = [] := by
  cases fuel with
  | zero => rfl
  | succ f => rfl

theorem tryMatch_cons_ne (c : Char) (t : Str) (h : ('T' : Char) ≠ c) :
    tryMatch (c :: t) = none := by
  have hlw : leadsWith ("TOOL:".data) (c :: t) = false := by
    rw [show leadsWith ("TOOL:".data) (c :: t)
        = (decide (('T' : Char) = c) && leadsWith ("OOL:".data) t) from rfl]
    simp [h]
  simp [tryMatch, dropLit, hlw]

theorem findMatchesAux_succ (fuel : Nat) (s : Str) :
    findMatchesAux (fuel + 1) s
      = (match tryMatch s with
         | some (name, span, rest) => (name, span) :: findMatchesAux fuel rest
         | none =>
           match s with
           | [] => []
           | _ :: t => findMatchesAux fuel t) := rfl

theorem findMatchesAux_step_match (fuel : Nat) (s nm sp rest : Str)
    (h : tryMatch s = some (nm, sp, rest)) :
    findMatchesAux (fuel + 1) s = (nm, sp) :: findMatchesAux fuel rest := by
  rw [findMatchesAux_succ, h]

theorem findMatchesAux_step_skip (fuel : Nat) (c : Char) (t : Str)
    (h : tryMatch (c :: t) = none) :
    findMatchesAux (fuel + 1) (c :: t) = findMatchesAux fuel t := by
  rw [findMatchesAux_succ, h]

theorem renderPairText_length_pos (p : Str × List (Str × Str)) :
    1 ≤ (renderPairText p).length := by
  have h6 : (("TOOL: ".data : Str)).length = 6 := rfl
  simp [renderPairText, List.length_append, h6]

theorem findMatchesAux_render (ps : List (Str × List (Str × Str))) :
    ∀ fuel : Nat,
      (∀ p ∈ ps, validName p.1 = true ∧ ∀ kv ∈ p.2, validEntry kv = true) →
      (renderConvText ps).length ≤ fuel →
      findMatchesAux fuel (renderConvText ps)
        = ps.map (fun p => (p.1, renderObj p.2)) := by
  induction ps with
  | nil =>
    intro fuel _ _
    exact findMatchesAux_nil fuel
  | cons p rest ih =>
    intro fuel hval hfuel
    obtain ⟨hp1, hp2⟩ := hval p (List.mem_cons_self p rest)
    cases rest with
    | nil =>
      have hlen : 1 ≤ (renderConvText [p]).length := by
        simp only [renderConvText]
        exact renderPairText_length_pos p
      cases fuel with
      | zero => omega
      | succ f =>
        simp only [renderConvText]
        rw [show renderPairText p = renderPairText p ++ [] from (List.append_nil _).symm]
        rw [findMatchesAux_step_match f _ _ _ _ (tryMatch_render p.1 p.2 [] hp1 hp2)]
        rw [findMatchesAux_nil f]
        rfl
    | cons q rest2 =>
      have hshape : renderConvText (p :: q :: rest2)
          = renderPairText p ++ ('\n' :: '\n' :: renderConvText (q :: rest2)) := by
        show (renderPairText p ++ "\n\n".data) ++ renderConvText (q :: rest2) = _
        rw [List.append_assoc]
        rfl
      rw [hshape] at hfuel ⊢
      have hLp := renderPairText_length_pos p
      have hlen2 : (renderPairText p ++ ('\n' :: '\n' :: renderConvText (q :: rest2))).length
          = (renderPairText p).length + 2 + (renderConvText (q :: rest2)).length := by
        simp [List.length_append]
        omega
      cases fuel with
      | zero => omega
      | succ f =>
        rw [findMatchesAux_step_match f _ _ _ _
          (tryMatch_render p.1 p.2 ('\n' :: '\n' :: renderConvText (q :: rest2)) hp1 hp2)]
        cases f with
        | zero => rw [hlen2] at hfuel; omega
        | succ f1 =>
          rw [findMatchesAux_step_skip f1 '\n' _ (tryMatch_cons_ne '\n' _ (by decide))]
          cases f1 with
          | zero => rw [hlen2] at hfuel; omega
          | succ f2 =>
            rw [findMatchesAux_step_skip f2 '\n' _ (tryMatch_cons_ne '\n' _ (by decide))]
            rw [ih f2 (fun u hu => hval u (List.mem_cons_of_mem p hu))
              (by rw [hlen2] at hfuel; omega)]
            rfl

theorem findMatches_render (ps : List (Str × List (Str × Str)))
    (hval : ∀ p ∈ ps, validName p.1 = true ∧ ∀ kv ∈ p.2, validEntry kv = true) :
    findMatches (renderConvText ps) = ps.map (fun p => (p.1, renderObj p.2)) :=
  findMatchesAux_render ps _ hval (Nat.le_refl _)



theorem stripBoth_no_ends (q : Char → Bool) (c0 : Char) (mid : Str) (c1 : Char)
    (h0 : q c0 = false) (h1 : q c1 = false) :
    stripBoth q (c0 :: (mid ++ [c1])) = c0 :: (mid ++ [c1]) := by
  unfold stripBoth
  rw [dropWhile_head_false q c0 _ h0]
  rw [show (c0 :: (mid ++ [c1])).reverse = c1 :: (mid.reverse ++ [c0]) by
    simp]
  rw [dropWhile_head_false q c1 _ h1]
  simp

theorem primaryCalls_render (ps : List (Str × List (Str × Str)))
    (hval : ∀ p ∈ ps, validName p.1 = true ∧ (∀ kv ∈ p.2, validEntry kv = true)
      ∧ (p.2.map Prod.fst).Nodup) :
    primaryCalls (renderConvText ps) = ps.map pairValue := by
  unfold primaryCalls
  rw [findMatches_render ps (fun p hp => ⟨(hval p hp).1, (hval p hp).2.1⟩)]
  rw [List.map_map]
  apply List.map_congr_left
  intro p hp
  obtain ⟨hn, hv, hnd⟩ := hval p hp
  obtain ⟨hne, hlow⟩ := validName_parts p.1 hn
  have hstrip1 : stripBoth (fun c => c = '`') (renderObj p.2) = renderObj p.2 :=
    stripBoth_no_ends _ '{' (objInner p.2) '}' (by decide) (by decide)
  have hstrip2 : pyStrip (renderObj p.2) = renderObj p.2 :=
    stripBoth_no_ends isPyWs '{' (objInner p.2) '}' (by decide) (by decide)
  have hname : pyStrip p.1 = p.1 := by
    unfold pyStrip stripBoth
    have hfwd : p.1.dropWhile isPyWs = p.1 := by
      cases hc : p.1 with
      | nil => rfl
      | cons c t =>
        apply dropWhile_head_false
        apply plainLower_not_pyWs
        apply List.all_eq_true.mp hlow
        rw [hc]
        exact List.mem_cons_self c t
    rw [hfwd]
    have hrev : p.1.reverse.dropWhile isPyWs = p.1.reverse := by
      cases hc : p.1.reverse with
      | nil => rfl
      | cons c t =>
        apply dropWhile_head_false
        apply plainLower_not_pyWs
        apply List.all_eq_true.mp hlow
        rw [← List.mem_reverse, hc]
        exact List.mem_cons_self c t
    rw [hrev, List.reverse_reverse]
  show (fun m : Str × Str =>
      match jsonLoads (pyStrip (stripBoth (fun c => c = '`') m.2)) with
      | some params => (pyStrip m.1, params)
      | none => (pyStrip m.1, PyValue.dict [])) (p.1, renderObj p.2) = pairValue p
  simp only [hstrip1, hstrip2, hname]
  rw [jsonLoads_renderObj p.2 hv hnd]
  rfl

theorem extract_nil_text (tools : List Tool) :
    extract_tool_calls [] tools = [] := by
  cases tools with
  | nil => rfl
  | cons t ts =>
    have hall : ∀ u : Tool, containsSub (toolMention u) (lowerStr ([] : Str)) = false :=
      fun u => rfl
    simp only [extract_tool_calls]
    rw [if_pos (by rfl)]
    rw [fallback_foldl]
    rw [List.filter_eq_nil_iff.mpr (fun u _ => by simp [hall u])]
    rfl



/-- C2 counterexample: for the single well-formed pair whose parameters text
is the valid nested JSON object `{"a": {"b": 1}}`, the lazy capture stops at
the first closing brace, so the extracted call carries the empty argument
mapping instead of the parsed (nonempty) object — the claim fails for nested
objects. -/
theorem C2_nested_object_cex :
    extract_tool_calls (("TOOL: add\nPARAMETERS: \x7b\"a\": \x7b\"b\": 1\x7d\x7d").data) []
        = [("add".data, PyValue.dict [])] ∧
    jsonLoads (("\x7b\"a\": \x7b\"b\": 1\x7d\x7d").data)
        = some (PyValue.dict [("a".data, PyValue.dict [("b".data, PyValue.int 1)])]) ∧
    (PyValue.dict [] : PyValue)
        ≠ PyValue.dict [("a".data, PyValue.dict [("b".data, PyValue.int 1)])] := by
  refine ⟨rfl, rfl, ?_⟩
  intro h
  injection h with h2
  simp at h2

/-- C2 amended: for every sequence of well-formed `TOOL:`/`PARAMETERS:`
pairs whose parameter objects are flat (string keys and values, so no `}`
precedes the object's final character), `extract_tool_calls` returns one
ToolCall per pair, in the order the markers appear, with arguments equal to
the parsed JSON object. -/
theorem C2_flat_pairs (ps : List (Str × List (Str × Str))) (tools : List Tool)
    (hval : ∀ p ∈ ps, validName p.1 = true ∧ (∀ kv ∈ p.2, validEntry kv = true)
      ∧ (p.2.map Prod.fst).Nodup) :
    extract_tool_calls (renderConvText ps) tools = ps.map pairValue := by
  cases ps with
  | nil => exact extract_nil_text tools
  | cons p rest =>
    have hpr := primaryCalls_render (p :: rest) hval
    have hne : (primaryCalls (renderConvText (p :: rest))).isEmpty = false := by
      rw [hpr]; rfl
    rw [extract_eq_primary _ tools hne, hpr]

/-- Witness for the amended C2 at a concrete one-pair render. -/
theorem C2_flat_pairs_witness :
    extract_tool_calls (renderConvText [("add".data, [("a".data, "b".data)])]) []
      = [("add".data, [("a".data, "b".data)])].map pairValue :=
  C2_flat_pairs [("add".data, [("a".data, "b".data)])] [] (by decide)

end Mcp
